import Mathlib

/-!
Verification development for the anki-korean repository.

The repository is a set of Python utility scripts for a Korean-vocabulary
flashcard workflow.  We give a shallow embedding of the functions the
specification talks about:

* `box_cropper.py` (top-level script) and `src/box_cropper.py` (package):
  contour-based box detection.  The OpenCV calls (`Canny`, `findContours`,
  `boundingRect`) are opaque image analysis; we model their combined output
  as the list of bounding rectangles of the detected contours, in the order
  `findContours` returns them, and embed everything the scripts do from that
  point on: the size filter, the (script-only) sort, and the numpy slice
  `img[y:y+h, x:x+w]` that produces each crop.  Images are lists of pixel
  rows; numpy/Python slicing clamps out-of-range indices exactly as
  `List.drop`/`List.take` do.
* `src/video_splitter.py`: the frame-extraction loop of
  `VideoFrameExtractor.extract_frames` and the constructor's existence check.
* `src/reduce_duplicates.py`: `find_duplicates_advanced` over perceptual
  hashes; a hash is a bit vector and the `imagehash` difference operator is
  the Hamming distance.
* `src/create_deck.py`: `remove_duplicates_from_csv` and `main`.
* `duolingo_parse.py`: the order-preserving deduplication of OCR pairs.
-/

namespace AnkiKorean

/-- An image, as numpy exposes it to the scripts: a list of pixel rows. -/
abbrev Image := List (List Nat)

/-- Width of an image, `img.shape[1]`: the length of the first row
(numpy arrays are rectangular; rectangularity is a hypothesis where needed). -/
def imWidth (img : Image) : Nat := (img.headD []).length

/-- The numpy slice `img[y:y+h, x:x+w]` for non-negative bounds.  Python
slicing clamps the stop index to the array length, which is exactly what
`List.drop`/`List.take` do. -/
def slice2d (img : Image) (x y w h : Nat) : Image :=
  ((img.drop y).take h).map (fun row => (row.drop x).take w)

/-- A bounding rectangle as returned by `cv2.boundingRect`: non-negative
`x, y` and size `w, h`. -/
structure Rect where
  x : Nat
  y : Nat
  w : Nat
  h : Nat
deriving DecidableEq, Repr

/-- The crop `img[y:y+h, x:x+w]` of a bounding rectangle. -/
def cropRect (img : Image) (r : Rect) : Image := slice2d img r.x r.y r.w r.h

namespace BoxCropperScript

/-- Size filter of the top-level script `box_cropper.py`, line 42:
`area > 5000 and w > 100 and h > 30`. -/
def sizePass (r : Rect) : Bool :=
  decide (5000 < r.w * r.h) && decide (100 < r.w) && decide (30 < r.h)

/-- The box list built by `detect_and_crop_boxes` in the top-level script:
collect the bounding rectangles that pass the size filter, then
`boxes.sort(key=lambda box: box[1])` — a stable sort by the `y`
coordinate. -/
def boxes (rects : List Rect) : List Rect :=
  (rects.filter sizePass).mergeSort (fun a b => decide (a.y ≤ b.y))

/-- The crops the script saves, in the order it saves them: one slice per
sorted box. -/
def crops (img : Image) (rects : List Rect) : List Image :=
  (boxes rects).map (cropRect img)

end BoxCropperScript

namespace BoxCropperPkg

/-- Size filter of `detect_and_crop_boxes_from_image` in
`src/box_cropper.py`, line 166: `area > min_area and w > min_width and
h > min_height`. -/
def sizePass (minArea minWidth minHeight : Nat) (r : Rect) : Bool :=
  decide (minArea < r.w * r.h) && decide (minWidth < r.w) && decide (minHeight < r.h)

/-- The loop of `detect_and_crop_boxes_from_image` (lines 160-172): walk the
contours in order and append the crop of every rectangle that passes the
size filter.  No sort happens in this implementation. -/
def detect_and_crop_boxes_from_image
    (img : Image) (minArea minWidth minHeight : Nat) : List Rect → List Image
  | [] => []
  | r :: rest =>
    if sizePass minArea minWidth minHeight r then
      cropRect img r :: detect_and_crop_boxes_from_image img minArea minWidth minHeight rest
    else
      detect_and_crop_boxes_from_image img minArea minWidth minHeight rest

/-- The sequence of bounding rectangles whose crops the package loop emits,
in emission order (the rectangle stream underlying
`detect_and_crop_boxes_from_image`). -/
def boxes (minArea minWidth minHeight : Nat) : List Rect → List Rect
  | [] => []
  | r :: rest =>
    if sizePass minArea minWidth minHeight r then
      r :: boxes minArea minWidth minHeight rest
    else
      boxes minArea minWidth minHeight rest

/-- `detect_and_crop_boxes` in the package (lines 201-211): the defaults
`min_area=5000, min_width=809, min_height=175` applied to
`detect_and_crop_boxes_from_image`. -/
def detect_and_crop_boxes (img : Image) (rects : List Rect) : List Image :=
  detect_and_crop_boxes_from_image img 5000 809 175 rects

/-- `apply_large_crop` (lines 109-134).  Python integers are unbounded and
the requested region may be negative, so coordinates are `Int`; the clamps
are exactly lines 126-129, and the result is the numpy slice together with
the clamped offset. -/
def apply_large_crop (img : Image) (crop_region : Int × Int × Int × Int) :
    Image × (Int × Int) :=
  let (x0, y0, w0, h0) := crop_region
  let imgH : Int := img.length
  let imgW : Int := imWidth img
  let x := max 0 (min x0 imgW)
  let y := max 0 (min y0 imgH)
  let w := min w0 (imgW - x)
  let h := min h0 (imgH - y)
  (slice2d img x.toNat y.toNat w.toNat h.toNat, (x, y))

end BoxCropperPkg

namespace VideoSplitter

/-- Error raised by `VideoFrameExtractor.__init__`. -/
inductive InitError where
  | fileNotFoundError
  | valueError
deriving DecidableEq, Repr

/-- The file-system state the constructor touches: the set of existing paths,
the set of existing directories, and the video captures opened so far. -/
structure FSState where
  paths : List String
  dirs : List String
  captures : List String
deriving DecidableEq, Repr

/-- The extractor object `__init__` builds on success. -/
structure Extractor where
  video_path : String
  output_dir : String
deriving DecidableEq, Repr

/-- `VideoFrameExtractor.__init__` (lines 34-54) over the file-system state:
check existence of the video path, then create the output directory, then
open the capture (`openable` says whether OpenCV can open the file).  Each
side effect is recorded in the returned state. -/
def VideoFrameExtractor_init (fs : FSState) (openable : String → Bool)
    (video_path output_dir : String) : Except InitError Extractor × FSState :=
  if video_path ∈ fs.paths then
    let fs1 : FSState := { fs with dirs := output_dir :: fs.dirs }
    if openable video_path then
      (Except.ok ⟨video_path, output_dir⟩,
        { fs1 with captures := video_path :: fs1.captures })
    else
      (Except.error InitError.valueError, fs1)
  else
    (Except.error InitError.fileNotFoundError, fs)

/-- The `while` loop of `extract_frames` (lines 104-133), modeled on the
absolute frame indices that get saved.  The capture is positioned at
`startF`; a read succeeds exactly when the current absolute index
`frameCount + startF` is below `total` (the video has frames
`0 … total-1`); the loop breaks on a failed read or when the index passes
`endF`, and saves the frame when `frameCount % interval == 0`. -/
def extractLoop (total startF endF interval : Nat) (frameCount : Nat) : List Nat :=
  if h : frameCount + startF < total then
    if endF < frameCount + startF then
      []
    else if frameCount % interval = 0 then
      (frameCount + startF) :: extractLoop total startF endF interval (frameCount + 1)
    else
      extractLoop total startF endF interval (frameCount + 1)
  else
    []
termination_by total - frameCount
decreasing_by
  all_goals omega

/-- `extract_frames` (lines 66-136), modeled on frame indices: the saved
file paths are in bijection with the saved absolute frame indices (the path
is built from the running `extracted_count` and the frame's timestamp), so
we return the list of saved absolute indices in save order.  `startF` and
`endFrame` are the frame numbers computed on lines 91-92 from the start and
end times; line 93 clamps the end to `total`. -/
def extract_frames (total : Nat) (interval : Nat) (startF endFrame : Nat) : List Nat :=
  extractLoop total startF (min endFrame total) interval 0

end VideoSplitter

/-- Python `str.lower()`: lowercase every character. -/
def pyLower (s : String) : String := String.mk (s.data.map Char.toLower)

/-- Python `str.replace(old, new)` for a one-character pattern: replace
every occurrence of the character `old` by `new`. -/
def pyReplaceChar (s : String) (old new : Char) : String :=
  String.mk (s.data.map (fun c => if c = old then new else c))

/-- Python `str.strip()`: drop leading and trailing whitespace. -/
def pyStrip (s : String) : String :=
  String.mk
    (((s.data.dropWhile Char.isWhitespace).reverse.dropWhile Char.isWhitespace).reverse)

/-- Specification-side definition: keep the first occurrence of each key
`f a`, preserving first-occurrence order.  Used to state that the
deduplications in `create_deck.py` and `duolingo_parse.py` are
order-preserving and first-occurrence-keeping. -/
def dedupByFirst {α β : Type} [DecidableEq β] (f : α → β) : List α → List α
  | [] => []
  | a :: rest => a :: dedupByFirst f (rest.filter (fun b => decide (f b ≠ f a)))
termination_by l => l.length
decreasing_by
  simp only [List.length_cons]
  exact Nat.lt_succ_of_le (List.length_filter_le _ _)

namespace ReduceDuplicates

/-- A perceptual hash: a fixed-size bit vector.  `imagehash`'s difference
operator `h1 - h2` is the Hamming distance of the two bit vectors. -/
abbrev PHash := List Bool

/-- Hamming distance between two hashes, the meaning of `h1 - h2` on
`imagehash.ImageHash` values. -/
def hashDiff (h1 h2 : PHash) : Nat :=
  ((h1.zip h2).filter (fun p => p.1 != p.2)).length

/-- One entry of the `image_hashes` list built on lines 21-28: the file
path together with its three perceptual hashes. -/
structure ImageHashes where
  path : String
  avg_hash : PHash
  p_hash : PHash
  d_hash : PHash
deriving DecidableEq, Repr

/-- `min(avg_diff, p_diff, d_diff)` for two entries (lines 37-42). -/
def minDiff (a b : ImageHashes) : Nat :=
  min (min (hashDiff a.avg_hash b.avg_hash) (hashDiff a.p_hash b.p_hash))
    (hashDiff a.d_hash b.d_hash)

/-- The inner loop of `find_duplicates_advanced` (lines 34-42): compare
`img1` against every later entry and report the pair when the minimum
difference is within the threshold. -/
def innerPairs (threshold : Nat) (img1 : ImageHashes) :
    List ImageHashes → List (String × String × Nat)
  | [] => []
  | img2 :: rest =>
    if minDiff img1 img2 ≤ threshold then
      (img1.path, img2.path, minDiff img1 img2) :: innerPairs threshold img1 rest
    else
      innerPairs threshold img1 rest

/-- `find_duplicates_advanced` from the point where the hashes have been
computed (lines 32-45): nested loops over index pairs `i < j`. -/
def find_duplicates_advanced (threshold : Nat) :
    List ImageHashes → List (String × String × Nat)
  | [] => []
  | img1 :: rest => innerPairs threshold img1 rest ++ find_duplicates_advanced threshold rest

/-- Fixture: a cropped-box image entry used as concrete input. -/
def imgEntryA : ImageHashes :=
  ImageHashes.mk "cropped_boxes/box_a.png" [false] [false] [false]

/-- Fixture: a second cropped-box image entry, with a different path but
perceptually identical `p_hash` (minimum difference 0). -/
def imgEntryB : ImageHashes :=
  ImageHashes.mk "cropped_boxes/box_b.png" [true] [false] [true]

/-- Fixture: a two-image directory whose entries are near-duplicates. -/
def dupDir : List ImageHashes := [imgEntryA, imgEntryB]

/-- The module-level usage of `reduce_duplicates.py` (lines 48-57): run
`find_duplicates_advanced` with threshold 5 on the directory and print the
reported pairs.  No file is deleted, so the directory contents come back
unchanged alongside the report. -/
def reduce_duplicates_script (directory : List ImageHashes) :
    List ImageHashes × List (String × String × Nat) :=
  (directory, find_duplicates_advanced 5 directory)

end ReduceDuplicates

namespace CreateDeck

/-- A row of the input CSV, with its `korean_text` and `english_text`
columns. -/
structure CsvRow where
  korean_text : String
  english_text : String
deriving DecidableEq, Repr

/-- The dictionary insertion of lines 31-35: `unique_pairs` is a Python
dict, so insertion order is preserved; a Korean key already present keeps
its first English value. -/
def insertPair (acc : List (String × String)) (k e : String) :
    List (String × String) :=
  if acc.any (fun p => p.1 == k) then acc else acc ++ [(k, e)]

/-- The row loop of `remove_duplicates_from_csv` (lines 22-35): strip both
columns, skip rows where either is empty, and insert into the ordered
dictionary. -/
def processRows (acc : List (String × String)) :
    List CsvRow → List (String × String)
  | [] => acc
  | row :: rest =>
    let k := pyStrip row.korean_text
    let e := pyStrip row.english_text
    if k = "" ∨ e = "" then processRows acc rest
    else processRows (insertPair acc k e) rest

/-- `remove_duplicates_from_csv` (lines 9-47).  `none` stands for a missing
file or a read error (lines 13-15 and 37-39), both of which return the
empty list; `some rows` is the parsed CSV content. -/
def remove_duplicates_from_csv (csv : Option (List CsvRow)) :
    List (String × String) :=
  match csv with
  | none => []
  | some rows => processRows [] rows

/-- A genanki note as `main` builds it: its ordered field list. -/
structure AnkiNote where
  fields : List String
deriving DecidableEq, Repr

/-- Line 61: `deck_name = "Korean Vocabulary"`. -/
def deck_name : String := "Korean Vocabulary"

/-- Line 62: `package_name = deck_name.lower().replace(" ", "_")`. -/
def package_name : String := pyReplaceChar (pyLower deck_name) ' ' '_'

/-- `main` (lines 50-97), from the point where the CSV has been read:
deduplicate, return without writing when no pairs remain (lines 68-70),
otherwise add one note per pair in order with fields
`[korean_text, english_text]` and write the package to
`package_name + ".apkg"`.  The result is the written file name and its
notes, or `none` when nothing is written. -/
def create_deck_main (csv : Option (List CsvRow)) :
    Option (String × List AnkiNote) :=
  let unique_pairs := remove_duplicates_from_csv csv
  if unique_pairs.isEmpty then none
  else
    some (package_name ++ ".apkg",
      unique_pairs.map (fun p => AnkiNote.mk [p.1, p.2]))

end CreateDeck

namespace DuolingoParse

/-- The dedup key of `duolingo_parse.py` line 141:
`key = (eng.lower(), kor)` — case-insensitive on the English side only. -/
def pairKey (p : String × String) : String × String := (pyLower p.1, p.2)

/-- The dedup loop of lines 138-144: `seen` is the set of keys met so far
(a Python `set`; only membership matters), `acc` the `unique` list built in
input order. -/
def uniqueLoop (seen : List (String × String)) (acc : List (String × String)) :
    List (String × String) → List (String × String)
  | [] => acc
  | p :: rest =>
    if pairKey p ∈ seen then uniqueLoop seen acc rest
    else uniqueLoop (pairKey p :: seen) (acc ++ [p]) rest

/-- The `unique` list computed on lines 137-144 from the extracted
`(english, korean)` pairs. -/
def unique (pairs : List (String × String)) : List (String × String) :=
  uniqueLoop [] [] pairs

/-- Lines 146-152: the CSV is written exactly when `unique` is non-empty;
we return the rows written, `none` when no file is written. -/
def csvOutput (pairs : List (String × String)) :
    Option (List (String × String)) :=
  let u := unique pairs
  if u.isEmpty then none else some u

end DuolingoParse

/-! ## Theorems -/

/-- `dedupByFirst` on the empty list. -/
theorem dedupByFirst_nil {α β : Type} [DecidableEq β] (f : α → β) :
    dedupByFirst f [] = [] := by
  rw [dedupByFirst]

/-- `dedupByFirst` unfolded one step. -/
theorem dedupByFirst_cons {α β : Type} [DecidableEq β] (f : α → β) (a : α) (l : List α) :
    dedupByFirst f (a :: l) =
      a :: dedupByFirst f (l.filter (fun b => decide (f b ≠ f a))) := by
  rw [dedupByFirst]

/-- Filtering by a key not being in `k :: seen` is filtering by it not being
in `seen` and then not being `k`. -/
theorem filter_key_notMem_cons {α β : Type} [DecidableEq β] (g : α → β) (k : β)
    (seen : List β) (l : List α) :
    l.filter (fun a => decide (g a ∉ k :: seen)) =
      (l.filter (fun a => decide (g a ∉ seen))).filter (fun a => decide (g a ≠ k)) := by
  rw [List.filter_filter]
  refine List.filter_congr (fun a _ => ?_)
  simp [List.mem_cons, not_or, and_comm]

/-- Filtering by a key not being in `seen ++ [k]` is filtering by it not
being in `seen` and then not being `k`. -/
theorem filter_key_notMem_append {α β : Type} [DecidableEq β] (g : α → β) (k : β)
    (seen : List β) (l : List α) :
    l.filter (fun a => decide (g a ∉ seen ++ [k])) =
      (l.filter (fun a => decide (g a ∉ seen))).filter (fun a => decide (g a ≠ k)) := by
  rw [List.filter_filter]
  refine List.filter_congr (fun a _ => ?_)
  simp [List.mem_append, not_or, and_comm]

/-- Elements of `dedupByFirst f l` come from `l`. -/
theorem mem_of_mem_dedupByFirst {α β : Type} [DecidableEq β] {f : α → β} :
    ∀ {l : List α} {a : α}, a ∈ dedupByFirst f l → a ∈ l
  | [], a, h => by rw [dedupByFirst_nil] at h; cases h
  | b :: l, a, h => by
    rw [dedupByFirst_cons] at h
    rcases List.mem_cons.mp h with h | h
    · exact h ▸ List.mem_cons_self b l
    · exact List.mem_cons_of_mem b (List.mem_of_mem_filter (mem_of_mem_dedupByFirst h))
termination_by l => l.length
decreasing_by
  simp only [List.length_cons]
  exact Nat.lt_succ_of_le (List.length_filter_le _ _)

/-- The keys of `dedupByFirst f l` are pairwise distinct. -/
theorem dedupByFirst_keys_nodup {α β : Type} [DecidableEq β] (f : α → β) :
    ∀ l : List α, ((dedupByFirst f l).map f).Nodup
  | [] => by rw [dedupByFirst_nil]; simp
  | a :: l => by
    rw [dedupByFirst_cons]
    simp only [List.map_cons, List.nodup_cons]
    refine ⟨fun hmem => ?_, dedupByFirst_keys_nodup f _⟩
    rcases List.mem_map.mp hmem with ⟨b, hb, hfb⟩
    have hbl := mem_of_mem_dedupByFirst hb
    have := List.of_mem_filter hbl
    simp only [decide_eq_true_eq] at this
    exact this hfb
termination_by l => l.length
decreasing_by
  simp only [List.length_cons]
  exact Nat.lt_succ_of_le (List.length_filter_le _ _)

namespace VideoSplitter

/-- C6: for every path that does not exist on the filesystem, constructing
`VideoFrameExtractor` on that path raises `FileNotFoundError`, and the
file-system state is unchanged: the output directory is not created and no
video capture is opened — the existence check precedes all side effects. -/
theorem init_missing_file_raises_and_leaves_state_unchanged
    (fs : FSState) (openable : String → Bool) (video_path output_dir : String)
    (h : video_path ∉ fs.paths) :
    VideoFrameExtractor_init fs openable video_path output_dir =
      (Except.error InitError.fileNotFoundError, fs) := by
  simp [VideoFrameExtractor_init, h]

/-- C6 witness: a concrete file system without the requested video. -/
theorem init_missing_file_witness :
    "missing.mp4" ∉ (FSState.mk ["video.mp4"] [] []).paths ∧
    VideoFrameExtractor_init (FSState.mk ["video.mp4"] [] []) (fun _ => true)
        "missing.mp4" "frames" =
      (Except.error InitError.fileNotFoundError, FSState.mk ["video.mp4"] [] []) :=
  ⟨by decide,
    init_missing_file_raises_and_leaves_state_unchanged
      (FSState.mk ["video.mp4"] [] []) (fun _ => true) "missing.mp4" "frames"
      (by decide)⟩

end VideoSplitter

namespace CreateDeck

/-- The package file name computed on line 62 is `korean_vocabulary.apkg`. -/
theorem package_file_name : package_name ++ ".apkg" = "korean_vocabulary.apkg" := by
  decide

/-- C7: `main` packages every unique pair exactly once: with a non-empty
unique pair list it writes `korean_vocabulary.apkg` containing one note per
pair, in list order, with fields `[korean_text, english_text]`; with an
empty pair list it returns without writing any deck file. -/
theorem create_deck_main_packages_each_pair_once (csv : Option (List CsvRow)) :
    (remove_duplicates_from_csv csv = [] → create_deck_main csv = none) ∧
    (remove_duplicates_from_csv csv ≠ [] →
      create_deck_main csv =
        some ("korean_vocabulary.apkg",
          (remove_duplicates_from_csv csv).map (fun p => AnkiNote.mk [p.1, p.2]))) := by
  constructor
  · intro h
    simp [create_deck_main, h]
  · intro h
    rw [← package_file_name]
    simp [create_deck_main, List.isEmpty_iff, h]

/-- C7 witness: a one-row CSV yields a one-note deck written to
`korean_vocabulary.apkg`. -/
theorem create_deck_main_witness :
    remove_duplicates_from_csv (some [CsvRow.mk "개" "dog"]) ≠ [] ∧
    create_deck_main (some [CsvRow.mk "개" "dog"]) =
      some ("korean_vocabulary.apkg",
        (remove_duplicates_from_csv (some [CsvRow.mk "개" "dog"])).map
          (fun p => AnkiNote.mk [p.1, p.2])) :=
  ⟨by decide,
    (create_deck_main_packages_each_pair_once (some [CsvRow.mk "개" "dog"])).2
      (by decide)⟩

end CreateDeck

namespace CreateDeck

/-- `insertPair` inserts at the back exactly when the Korean key is new. -/
theorem insertPair_eq (acc : List (String × String)) (k e : String) :
    insertPair acc k e =
      if k ∈ acc.map Prod.fst then acc else acc ++ [(k, e)] := by
  by_cases hk : k ∈ acc.map Prod.fst
  · have hany : (acc.any fun p => p.1 == k) = true := by
      rcases List.mem_map.mp hk with ⟨p, hp, hpk⟩
      exact List.any_eq_true.mpr ⟨p, hp, beq_iff_eq.mpr hpk⟩
    simp [insertPair, hany, hk]
  · have hany : (acc.any fun p => p.1 == k) = false := by
      rw [List.any_eq_false]
      intro p hp
      simp only [beq_iff_eq]
      exact fun hpk => hk (List.mem_map.mpr ⟨p, hp, hpk⟩)
    simp [insertPair, hany, hk]

/-- The row loop of `remove_duplicates_from_csv`, generalized over the
accumulated dictionary: it appends, in first-occurrence order, the cleaned
rows whose Korean key is not already present. -/
theorem processRows_eq (rows : List CsvRow) :
    ∀ acc : List (String × String),
      processRows acc rows =
        acc ++ dedupByFirst Prod.fst
          ((((rows.map (fun r => (pyStrip r.korean_text, pyStrip r.english_text))).filter
              (fun p => decide (p.1 ≠ "") && decide (p.2 ≠ ""))).filter
            (fun p => decide (p.1 ∉ acc.map Prod.fst)))) := by
  induction rows with
  | nil => intro acc; simp [processRows, dedupByFirst_nil]
  | cons row rest ih =>
    intro acc
    by_cases hke : pyStrip row.korean_text = "" ∨ pyStrip row.english_text = ""
    · have hfilter :
          (decide (pyStrip row.korean_text ≠ "") &&
            decide (pyStrip row.english_text ≠ "")) = false := by
        rcases hke with h | h <;> simp [h]
      simp only [processRows, if_pos hke, List.map_cons, List.filter_cons, hfilter,
        Bool.false_eq_true, if_false]
      exact ih acc
    · have hkeep :
          (decide (pyStrip row.korean_text ≠ "") &&
            decide (pyStrip row.english_text ≠ "")) = true := by
        push_neg at hke
        simp [hke.1, hke.2]
      by_cases hk : pyStrip row.korean_text ∈ acc.map Prod.fst
      · have hdrop : decide ((pyStrip row.korean_text, pyStrip row.english_text).1 ∉
            acc.map Prod.fst) = false := by simpa using hk
        simp only [processRows, if_neg hke, insertPair_eq, if_pos hk, List.map_cons,
          List.filter_cons, hkeep, if_true, hdrop, Bool.false_eq_true, if_false]
        exact ih acc
      · have hkeep2 : decide ((pyStrip row.korean_text, pyStrip row.english_text).1 ∉
            acc.map Prod.fst) = true := by simpa using hk
        simp only [processRows, if_neg hke, insertPair_eq, if_neg hk, List.map_cons,
          List.filter_cons, hkeep, if_true, hkeep2]
        rw [ih (acc ++ [(pyStrip row.korean_text, pyStrip row.english_text)])]
        simp only [List.map_append, List.map_cons, List.map_nil]
        rw [filter_key_notMem_append Prod.fst]
        rw [dedupByFirst_cons]
        simp [List.append_assoc]

/-- C8: `remove_duplicates_from_csv` keeps, of every row with non-empty
stripped `korean_text` and `english_text`, the first occurrence of each
Korean key with its English text, in first-occurrence order; the resulting
Korean texts are pairwise distinct; a missing file or a read error gives the
empty list. -/
theorem remove_duplicates_from_csv_spec :
    remove_duplicates_from_csv none = [] ∧
    ∀ rows : List CsvRow,
      remove_duplicates_from_csv (some rows) =
        dedupByFirst Prod.fst
          ((rows.map (fun r => (pyStrip r.korean_text, pyStrip r.english_text))).filter
            (fun p => decide (p.1 ≠ "") && decide (p.2 ≠ ""))) ∧
      ((remove_duplicates_from_csv (some rows)).map Prod.fst).Nodup := by
  have key : ∀ rows : List CsvRow,
      remove_duplicates_from_csv (some rows) =
        dedupByFirst Prod.fst
          ((rows.map (fun r => (pyStrip r.korean_text, pyStrip r.english_text))).filter
            (fun p => decide (p.1 ≠ "") && decide (p.2 ≠ ""))) := by
    intro rows
    have h := processRows_eq rows []
    simpa [remove_duplicates_from_csv] using h
  exact ⟨rfl, fun rows => ⟨key rows, by rw [key rows]; exact dedupByFirst_keys_nodup _ _⟩⟩

end CreateDeck

namespace DuolingoParse

/-- `filter_key_notMem_cons` specialized to `pairKey` (stated at the
concrete pair type so that it rewrites in place). -/
theorem filter_pairKey_notMem_cons (k : String × String)
    (seen : List (String × String)) (l : List (String × String)) :
    l.filter (fun a => decide (pairKey a ∉ k :: seen)) =
      (l.filter (fun a => decide (pairKey a ∉ seen))).filter
        (fun a => decide (pairKey a ≠ k)) := by
  rw [List.filter_filter]
  refine List.filter_congr (fun a _ => ?_)
  simp [List.mem_cons, not_or, and_comm]

/-- The dedup loop of `duolingo_parse.py`, generalized over the seen-key set
and the accumulated output: it appends, in first-occurrence order, the pairs
whose key is not in `seen`. -/
theorem uniqueLoop_eq (l : List (String × String)) :
    ∀ (seen acc : List (String × String)),
      uniqueLoop seen acc l =
        acc ++ dedupByFirst pairKey (l.filter (fun p => decide (pairKey p ∉ seen))) := by
  induction l with
  | nil => intro seen acc; simp [uniqueLoop, dedupByFirst_nil]
  | cons p rest ih =>
    intro seen acc
    by_cases hp : pairKey p ∈ seen
    · have hdrop : decide (pairKey p ∉ seen) = false := by simpa using hp
      simp only [uniqueLoop, if_pos hp, List.filter_cons, hdrop, Bool.false_eq_true, if_false]
      exact ih seen acc
    · have hkeep : decide (pairKey p ∉ seen) = true := by simpa using hp
      simp only [uniqueLoop, if_neg hp, List.filter_cons, hkeep, if_true]
      rw [ih (pairKey p :: seen) (acc ++ [p])]
      rw [filter_pairKey_notMem_cons (pairKey p) seen rest]
      rw [dedupByFirst_cons]
      simp [List.append_assoc]

/-- C10: the OCR pipeline's deduplication keeps the first occurrence of each
`(lowercased english, korean)` key, preserving first-occurrence order; no
two output entries share a key; and the CSV is written exactly when at least
one unique pair exists. -/
theorem unique_dedup_spec (pairs : List (String × String)) :
    unique pairs = dedupByFirst pairKey pairs ∧
    ((unique pairs).map pairKey).Nodup ∧
    (csvOutput pairs = none ↔ unique pairs = []) := by
  have key : unique pairs = dedupByFirst pairKey pairs := by
    have h := uniqueLoop_eq pairs [] []
    simpa [unique] using h
  refine ⟨key, by rw [key]; exact dedupByFirst_keys_nodup _ _, ?_⟩
  rcases h : unique pairs with _ | ⟨a, l⟩
  · simp [csvOutput, h]
  · simp [csvOutput, h]

end DuolingoParse

namespace BoxCropperPkg

/-- C9: for every image and requested region `(x, y, w, h)` with
non-negative `w` and `h`, `apply_large_crop` returns an offset `(x', y')`
with `0 ≤ x' ≤ width` and `0 ≤ y' ≤ height`, a crop whose height and row
widths never exceed the requested `h` and `w`, and a crop lying entirely
within the image (`y' + crop height ≤ height` and `x' + row width ≤ width`),
so the slice indices are always valid. -/
theorem apply_large_crop_in_bounds (img : Image) (x y w h : Int)
    (hw : 0 ≤ w) (hh : 0 ≤ h)
    (hrect : ∀ row ∈ img, row.length = imWidth img) :
    0 ≤ (apply_large_crop img (x, y, w, h)).2.1 ∧
    (apply_large_crop img (x, y, w, h)).2.1 ≤ (imWidth img : Int) ∧
    0 ≤ (apply_large_crop img (x, y, w, h)).2.2 ∧
    (apply_large_crop img (x, y, w, h)).2.2 ≤ (img.length : Int) ∧
    ((apply_large_crop img (x, y, w, h)).1.length : Int) ≤ h ∧
    (apply_large_crop img (x, y, w, h)).2.2 +
        ((apply_large_crop img (x, y, w, h)).1.length : Int) ≤ (img.length : Int) ∧
    ∀ row ∈ (apply_large_crop img (x, y, w, h)).1,
      (row.length : Int) ≤ w ∧
        (apply_large_crop img (x, y, w, h)).2.1 + (row.length : Int) ≤ (imWidth img : Int) := by
  simp only [apply_large_crop, slice2d, List.length_map, List.length_take, List.length_drop]
  refine ⟨?_, ?_, ?_, ?_, ?_, ?_, ?_⟩
  · omega
  · omega
  · omega
  · omega
  · push_cast
    omega
  · push_cast
    omega
  · intro row hrow
    rcases List.mem_map.mp hrow with ⟨r0, hr0, hrow_eq⟩
    have hr0img : r0 ∈ img := List.mem_of_mem_drop (List.mem_of_mem_take hr0)
    have hlen : r0.length = imWidth img := hrect r0 hr0img
    subst hrow_eq
    simp only [List.length_take, List.length_drop, hlen]
    constructor
    · push_cast
      omega
    · push_cast
      omega

/-- C9 witness: a 2×2 image with a partly out-of-range requested region. -/
theorem apply_large_crop_witness :
    (0 : Int) ≤ 5 ∧ (0 : Int) ≤ 7 ∧
    (∀ row ∈ ([[1, 2], [3, 4]] : Image), row.length = imWidth [[1, 2], [3, 4]]) ∧
    (0 ≤ (apply_large_crop [[1, 2], [3, 4]] (-1, 1, 5, 7)).2.1 ∧
     (apply_large_crop [[1, 2], [3, 4]] (-1, 1, 5, 7)).2.1 ≤ (imWidth [[1, 2], [3, 4]] : Int) ∧
     0 ≤ (apply_large_crop [[1, 2], [3, 4]] (-1, 1, 5, 7)).2.2 ∧
     (apply_large_crop [[1, 2], [3, 4]] (-1, 1, 5, 7)).2.2 ≤
       (([[1, 2], [3, 4]] : Image).length : Int) ∧
     (((apply_large_crop [[1, 2], [3, 4]] (-1, 1, 5, 7)).1.length : Int)) ≤ 7 ∧
     (apply_large_crop [[1, 2], [3, 4]] (-1, 1, 5, 7)).2.2 +
         ((apply_large_crop [[1, 2], [3, 4]] (-1, 1, 5, 7)).1.length : Int) ≤
       (([[1, 2], [3, 4]] : Image).length : Int) ∧
     ∀ row ∈ (apply_large_crop [[1, 2], [3, 4]] (-1, 1, 5, 7)).1,
       (row.length : Int) ≤ 5 ∧
         (apply_large_crop [[1, 2], [3, 4]] (-1, 1, 5, 7)).2.1 + (row.length : Int) ≤
           (imWidth [[1, 2], [3, 4]] : Int)) :=
  ⟨by decide, by decide, by decide,
    apply_large_crop_in_bounds [[1, 2], [3, 4]] (-1) 1 5 7 (by decide) (by decide)
      (by decide)⟩

end BoxCropperPkg

namespace BoxCropperPkg

/-- The emitted-box stream of the package loop is the size filter applied
to the contour rectangles, in contour order. -/
theorem boxes_eq_filter (minArea minWidth minHeight : Nat) (rects : List Rect) :
    boxes minArea minWidth minHeight rects =
      rects.filter (sizePass minArea minWidth minHeight) := by
  induction rects with
  | nil => rfl
  | cons r rest ih =>
    by_cases hp : sizePass minArea minWidth minHeight r
    · simp [boxes, List.filter_cons, hp, ih]
    · simp [boxes, List.filter_cons, hp, ih]

/-- The package loop's crops are the crops of its emitted boxes, in the same
order. -/
theorem detect_eq_map_boxes (img : Image) (minArea minWidth minHeight : Nat)
    (rects : List Rect) :
    detect_and_crop_boxes_from_image img minArea minWidth minHeight rects =
      (boxes minArea minWidth minHeight rects).map (cropRect img) := by
  induction rects with
  | nil => rfl
  | cons r rest ih =>
    by_cases hp : sizePass minArea minWidth minHeight r
    · simp [detect_and_crop_boxes_from_image, boxes, hp, ih]
    · simp [detect_and_crop_boxes_from_image, boxes, hp, ih]

end BoxCropperPkg

/-- C1 (amended): only the top-level script sorts the filtered boxes
top-to-bottom (non-decreasing `y`) before cropping; the package
implementation `detect_and_crop_boxes_from_image` crops the filtered boxes
in contour order, without sorting. -/
theorem sort_only_in_script_implementation (img : Image) (rects : List Rect)
    (minArea minWidth minHeight : Nat) :
    (BoxCropperScript.boxes rects).Pairwise (fun a b => a.y ≤ b.y) ∧
    BoxCropperScript.crops img rects =
      (BoxCropperScript.boxes rects).map (cropRect img) ∧
    BoxCropperPkg.boxes minArea minWidth minHeight rects =
      rects.filter (BoxCropperPkg.sizePass minArea minWidth minHeight) ∧
    BoxCropperPkg.detect_and_crop_boxes_from_image img minArea minWidth minHeight rects =
      (BoxCropperPkg.boxes minArea minWidth minHeight rects).map (cropRect img) := by
  refine ⟨?_, rfl, BoxCropperPkg.boxes_eq_filter _ _ _ _,
    BoxCropperPkg.detect_eq_map_boxes _ _ _ _ _⟩
  have hs := @List.sorted_mergeSort Rect (fun a b : Rect => decide (a.y ≤ b.y))
    (fun a b c hab hbc => by
      simp only [decide_eq_true_eq] at *
      omega)
    (fun a b => by
      simp only [Bool.or_eq_true, decide_eq_true_eq]
      omega)
    (rects.filter BoxCropperScript.sizePass)
  rw [BoxCropperScript.boxes]
  exact hs.imp (fun h => by simpa using h)

/-- C1 counterexample: two contour rectangles that both pass the default
size filter of the package implementation, listed with the lower box first;
the boxes whose crops `detect_and_crop_boxes_from_image` emits are not in
non-decreasing `y` order. -/
theorem pkg_boxes_unsorted_counterexample :
    ¬ (BoxCropperPkg.boxes 5000 809 175
        [Rect.mk 0 10 900 200, Rect.mk 0 0 900 200]).Pairwise
      (fun a b => a.y ≤ b.y) := by
  decide

namespace VideoSplitter

/-- Membership in the extraction loop: starting from frame counter `fc`, the
saved absolute indices are exactly the readable indices (`< total`) from the
current position on that respect the end bound and the sampling stride. -/
theorem mem_extractLoop (total startF endF interval fc i : Nat) :
    i ∈ extractLoop total startF endF interval fc ↔
      fc + startF ≤ i ∧ i < total ∧ i ≤ endF ∧ (i - startF) % interval = 0 := by
  rw [extractLoop]
  by_cases h1 : fc + startF < total
  · rw [dif_pos h1]
    by_cases h2 : endF < fc + startF
    · rw [if_pos h2]
      simp only [List.not_mem_nil, false_iff]
      omega
    · rw [if_neg h2]
      by_cases h3 : fc % interval = 0
      · rw [if_pos h3]
        rw [List.mem_cons, mem_extractLoop total startF endF interval (fc + 1) i]
        constructor
        · rintro (rfl | ⟨hle, hlt, hend, hmod⟩)
          · refine ⟨Nat.le_refl _, h1, by omega, ?_⟩
            have hsub : fc + startF - startF = fc := by omega
            rw [hsub]
            exact h3
          · exact ⟨by omega, hlt, hend, hmod⟩
        · rintro ⟨hle, hlt, hend, hmod⟩
          by_cases heq : i = fc + startF
          · exact Or.inl heq
          · exact Or.inr ⟨by omega, hlt, hend, hmod⟩
      · rw [if_neg h3]
        rw [mem_extractLoop total startF endF interval (fc + 1) i]
        constructor
        · rintro ⟨hle, hlt, hend, hmod⟩
          exact ⟨by omega, hlt, hend, hmod⟩
        · rintro ⟨hle, hlt, hend, hmod⟩
          refine ⟨?_, hlt, hend, hmod⟩
          rcases Nat.eq_or_lt_of_le hle with heq | hlt2
          · exfalso
            apply h3
            have hsub : i - startF = fc := by omega
            rw [hsub] at hmod
            exact hmod
          · omega
  · rw [dif_neg h1]
    simp only [List.not_mem_nil, false_iff]
    omega
termination_by total - fc
decreasing_by
  all_goals omega

/-- The extraction loop saves indices in strictly increasing order. -/
theorem extractLoop_pairwise (total startF endF interval fc : Nat) :
    (extractLoop total startF endF interval fc).Pairwise (· < ·) := by
  rw [extractLoop]
  by_cases h1 : fc + startF < total
  · rw [dif_pos h1]
    by_cases h2 : endF < fc + startF
    · rw [if_pos h2]
      exact List.Pairwise.nil
    · rw [if_neg h2]
      by_cases h3 : fc % interval = 0
      · rw [if_pos h3]
        refine List.Pairwise.cons ?_ (extractLoop_pairwise total startF endF interval (fc + 1))
        intro j hj
        have := (mem_extractLoop total startF endF interval (fc + 1) j).mp hj
        omega
      · rw [if_neg h3]
        exact extractLoop_pairwise total startF endF interval (fc + 1)
  · rw [dif_neg h1]
    exact List.Pairwise.nil
termination_by total - fc
decreasing_by
  all_goals omega

/-- C3: for every video, interval `N ≥ 1`, start frame and end frame,
`extract_frames` saves exactly the frames whose absolute index equals
`start_frame + k*N` for some `k ≥ 0` and lies in
`[start_frame, min(end_frame, total_frames)]` (a frame exists only for
indices below `total_frames`), in strictly increasing index order — the
returned file paths are in bijection with these indices, in that order. -/
theorem extract_frames_every_nth (total interval startF endFrame : Nat)
    (hN : 1 ≤ interval) :
    (∀ i, i ∈ extract_frames total interval startF endFrame ↔
      i < total ∧ startF ≤ i ∧ i ≤ min endFrame total ∧
        ∃ k, i = startF + k * interval) ∧
    (extract_frames total interval startF endFrame).Pairwise (· < ·) := by
  constructor
  · intro i
    rw [extract_frames, mem_extractLoop]
    constructor
    · rintro ⟨hle, hlt, hend, hmod⟩
      refine ⟨hlt, by omega, hend, ?_⟩
      rcases Nat.dvd_of_mod_eq_zero hmod with ⟨k, hk⟩
      have h2 : i = interval * k + startF := (Nat.sub_eq_iff_eq_add (by omega)).mp hk
      exact ⟨k, by rw [h2, Nat.mul_comm, Nat.add_comm]⟩
    · rintro ⟨hlt, hle, hend, ⟨k, hk⟩⟩
      refine ⟨by omega, hlt, hend, ?_⟩
      rw [hk, Nat.add_sub_cancel_left]
      exact Nat.mul_mod_left k interval
  · exact extractLoop_pairwise _ _ _ _ _

/-- C3 witness: a 10-frame video sampled every 3rd frame between frames 2
and 5 saves exactly frames 2 and 5. -/
theorem extract_frames_witness :
    1 ≤ 3 ∧
    ((∀ i, i ∈ extract_frames 10 3 2 5 ↔
        i < 10 ∧ 2 ≤ i ∧ i ≤ min 5 10 ∧ ∃ k, i = 2 + k * 3) ∧
      (extract_frames 10 3 2 5).Pairwise (· < ·)) :=
  ⟨by decide, extract_frames_every_nth 10 3 2 5 (by decide)⟩

end VideoSplitter

/-- C2: a contour contributes a box if and only if its bounding rectangle
satisfies `w*h > min_area`, `w > min_width`, `h > min_height` (5000/100/30
in the top-level script; 5000/809/175 as the package defaults), and the
emitted crop is exactly the sub-image `img[y:y+h, x:x+w]`. -/
theorem box_filter_membership_and_crop (img : Image) (rects : List Rect)
    (minArea minWidth minHeight : Nat) (r : Rect) :
    (r ∈ BoxCropperScript.boxes rects ↔
      r ∈ rects ∧ 5000 < r.w * r.h ∧ 100 < r.w ∧ 30 < r.h) ∧
    (r ∈ BoxCropperPkg.boxes minArea minWidth minHeight rects ↔
      r ∈ rects ∧ minArea < r.w * r.h ∧ minWidth < r.w ∧ minHeight < r.h) ∧
    BoxCropperScript.crops img rects =
      (BoxCropperScript.boxes rects).map (cropRect img) ∧
    BoxCropperPkg.detect_and_crop_boxes img rects =
      (BoxCropperPkg.boxes 5000 809 175 rects).map (cropRect img) ∧
    cropRect img r = ((img.drop r.y).take r.h).map (fun row => (row.drop r.x).take r.w) := by
  refine ⟨?_, ?_, rfl, BoxCropperPkg.detect_eq_map_boxes _ _ _ _ _, rfl⟩
  · rw [BoxCropperScript.boxes]
    simp [List.mem_mergeSort, List.mem_filter, BoxCropperScript.sizePass, and_assoc]
  · rw [BoxCropperPkg.boxes_eq_filter]
    simp [List.mem_filter, BoxCropperPkg.sizePass, and_assoc]

namespace ReduceDuplicates

/-- Membership in the inner comparison loop: `img1` paired with each later
entry whose minimum hash difference is within the threshold. -/
theorem mem_innerPairs (t : Nat) (x : ImageHashes) :
    ∀ (l : List ImageHashes) (trip : String × String × Nat),
      trip ∈ innerPairs t x l ↔
        ∃ b, b ∈ l ∧ minDiff x b ≤ t ∧ trip = (x.path, b.path, minDiff x b)
  | [], trip => by simp [innerPairs]
  | b :: rest, trip => by
    by_cases hb : minDiff x b ≤ t
    · simp only [innerPairs, if_pos hb, List.mem_cons]
      rw [mem_innerPairs t x rest trip]
      constructor
      · rintro (rfl | ⟨c, hc, hct, rfl⟩)
        · exact ⟨b, Or.inl rfl, hb, rfl⟩
        · exact ⟨c, Or.inr hc, hct, rfl⟩
      · rintro ⟨c, (rfl | hc), hct, rfl⟩
        · exact Or.inl rfl
        · exact Or.inr ⟨c, hc, hct, rfl⟩
    · simp only [innerPairs, if_neg hb, List.mem_cons]
      rw [mem_innerPairs t x rest trip]
      constructor
      · rintro ⟨c, hc, hct, rfl⟩
        exact ⟨c, Or.inr hc, hct, rfl⟩
      · rintro ⟨c, (rfl | hc), hct, rfl⟩
        · exact absurd hct hb
        · exact ⟨c, hc, hct, rfl⟩

/-- Index characterization of `find_duplicates_advanced`: a triple is
reported exactly when it is the comparison of two entries at positions
`i < j` whose minimum hash difference is within the threshold. -/
theorem mem_find_duplicates (t : Nat) :
    ∀ (hs : List ImageHashes) (trip : String × String × Nat),
      trip ∈ find_duplicates_advanced t hs ↔
        ∃ (i j : Nat) (hi : i < hs.length) (hj : j < hs.length), i < j ∧
          minDiff (hs.get ⟨i, hi⟩) (hs.get ⟨j, hj⟩) ≤ t ∧
          trip = ((hs.get ⟨i, hi⟩).path, (hs.get ⟨j, hj⟩).path,
            minDiff (hs.get ⟨i, hi⟩) (hs.get ⟨j, hj⟩))
  | [], trip => by simp [find_duplicates_advanced]
  | x :: rest, trip => by
    simp only [find_duplicates_advanced, List.mem_append]
    rw [mem_innerPairs t x rest trip, mem_find_duplicates t rest trip]
    constructor
    · rintro (⟨b, hb, hbt, rfl⟩ | ⟨i, j, hi, hj, hij, hle, rfl⟩)
      · rcases List.mem_iff_get.mp hb with ⟨jf, rfl⟩
        exact ⟨0, jf.val + 1, Nat.succ_pos _, Nat.succ_lt_succ jf.isLt,
          Nat.succ_pos _, hbt, rfl⟩
      · exact ⟨i + 1, j + 1, Nat.succ_lt_succ hi, Nat.succ_lt_succ hj,
          Nat.succ_lt_succ hij, hle, rfl⟩
    · rintro ⟨i, j, hi, hj, hij, hle, rfl⟩
      obtain ⟨j1, rfl⟩ : ∃ j1, j = j1 + 1 := ⟨j - 1, by omega⟩
      have hj1 : j1 < rest.length := Nat.lt_of_succ_lt_succ hj
      match i with
      | 0 =>
        left
        exact ⟨rest.get ⟨j1, hj1⟩, List.get_mem rest j1 hj1, hle, rfl⟩
      | i1 + 1 =>
        right
        have hi1 : i1 < rest.length := Nat.lt_of_succ_lt_succ hi
        exact ⟨i1, j1, hi1, hj1, Nat.lt_of_succ_lt_succ hij, hle, rfl⟩

/-- Distinct paths at distinct list positions: indices are recoverable from
the path when the directory's paths are pairwise distinct. -/
theorem path_index_injective (hs : List ImageHashes)
    (hnodup : (hs.map ImageHashes.path).Nodup) (i j : Nat)
    (hi : i < hs.length) (hj : j < hs.length)
    (heq : (hs.get ⟨i, hi⟩).path = (hs.get ⟨j, hj⟩).path) : i = j := by
  have hi2 : i < (hs.map ImageHashes.path).length := by simpa using hi
  have hj2 : j < (hs.map ImageHashes.path).length := by simpa using hj
  have hget : (hs.map ImageHashes.path).get ⟨i, hi2⟩ =
      (hs.map ImageHashes.path).get ⟨j, hj2⟩ := by
    simpa [List.get_map] using heq
  have hfin := List.nodup_iff_injective_get.mp hnodup hget
  simpa using congrArg Fin.val hfin

/-- The inner loop reports pairwise different `(first, second)` path pairs
when the compared entries have pairwise distinct paths. -/
theorem innerPairs_pairwise_keys (t : Nat) (x : ImageHashes) :
    ∀ (l : List ImageHashes), (l.map ImageHashes.path).Nodup →
      (innerPairs t x l).Pairwise (fun u v => u.1 ≠ v.1 ∨ u.2.1 ≠ v.2.1)
  | [], _ => by simp [innerPairs]
  | b :: rest, hnodup => by
    rw [List.map_cons, List.nodup_cons] at hnodup
    by_cases hb : minDiff x b ≤ t
    · simp only [innerPairs, if_pos hb]
      refine List.Pairwise.cons ?_ (innerPairs_pairwise_keys t x rest hnodup.2)
      intro v hv
      rcases (mem_innerPairs t x rest v).mp hv with ⟨c, hc, hct, rfl⟩
      right
      show b.path ≠ c.path
      exact fun hbc => hnodup.1 (hbc ▸ List.mem_map.mpr ⟨c, hc, rfl⟩)
    · simp only [innerPairs, if_neg hb]
      exact innerPairs_pairwise_keys t x rest hnodup.2

/-- With pairwise distinct paths, no two reported triples share the same
ordered `(first, second)` path pair. -/
theorem find_duplicates_pairwise_keys (t : Nat) :
    ∀ (hs : List ImageHashes), (hs.map ImageHashes.path).Nodup →
      (find_duplicates_advanced t hs).Pairwise
        (fun u v => u.1 ≠ v.1 ∨ u.2.1 ≠ v.2.1)
  | [], _ => by simp [find_duplicates_advanced]
  | x :: rest, hnodup => by
    rw [List.map_cons, List.nodup_cons] at hnodup
    simp only [find_duplicates_advanced]
    rw [List.pairwise_append]
    refine ⟨innerPairs_pairwise_keys t x rest hnodup.2,
      find_duplicates_pairwise_keys t rest hnodup.2, ?_⟩
    intro u hu v hv
    rcases (mem_innerPairs t x rest u).mp hu with ⟨c, hc, hct, rfl⟩
    rcases (mem_find_duplicates t rest v).mp hv with ⟨i, j, hi, hj, hij, hle, rfl⟩
    left
    show x.path ≠ (rest.get ⟨i, hi⟩).path
    exact fun hxv =>
      hnodup.1 (hxv ▸ List.mem_map.mpr ⟨rest.get ⟨i, hi⟩, List.get_mem rest i hi, rfl⟩)

/-- C4: with pairwise distinct image paths, `find_duplicates_advanced`
reports a pair exactly when the minimum of the three hash distances is
within the threshold, over index pairs `i < j`; the reported difference is
that minimum; no image is paired with itself; each ordered pair is reported
at most once and never together with its reverse. -/
theorem find_duplicates_reports_iff (t : Nat) (hs : List ImageHashes)
    (hnodup : (hs.map ImageHashes.path).Nodup) :
    (∀ p q d, (p, q, d) ∈ find_duplicates_advanced t hs →
      ∃ (i j : Nat) (hi : i < hs.length) (hj : j < hs.length), i < j ∧
        p = (hs.get ⟨i, hi⟩).path ∧ q = (hs.get ⟨j, hj⟩).path ∧
        d = minDiff (hs.get ⟨i, hi⟩) (hs.get ⟨j, hj⟩) ∧ d ≤ t) ∧
    (∀ (i j : Nat) (hi : i < hs.length) (hj : j < hs.length), i < j →
      minDiff (hs.get ⟨i, hi⟩) (hs.get ⟨j, hj⟩) ≤ t →
      ((hs.get ⟨i, hi⟩).path, (hs.get ⟨j, hj⟩).path,
        minDiff (hs.get ⟨i, hi⟩) (hs.get ⟨j, hj⟩)) ∈ find_duplicates_advanced t hs) ∧
    (∀ p d, (p, p, d) ∉ find_duplicates_advanced t hs) ∧
    (find_duplicates_advanced t hs).Pairwise
      (fun u v => u.1 ≠ v.1 ∨ u.2.1 ≠ v.2.1) ∧
    (∀ p q d e, (p, q, d) ∈ find_duplicates_advanced t hs →
      (q, p, e) ∉ find_duplicates_advanced t hs) := by
  refine ⟨?_, ?_, ?_, find_duplicates_pairwise_keys t hs hnodup, ?_⟩
  · intro p q d hmem
    rcases (mem_find_duplicates t hs (p, q, d)).mp hmem with
      ⟨i, j, hi, hj, hij, hle, heq⟩
    simp only [Prod.mk.injEq] at heq
    obtain ⟨hp, hq, hd⟩ := heq
    exact ⟨i, j, hi, hj, hij, hp, hq, hd, hd ▸ hle⟩
  · intro i j hi hj hij hle
    exact (mem_find_duplicates t hs _).mpr ⟨i, j, hi, hj, hij, hle, rfl⟩
  · intro p d hmem
    rcases (mem_find_duplicates t hs (p, p, d)).mp hmem with
      ⟨i, j, hi, hj, hij, hle, heq⟩
    simp only [Prod.mk.injEq] at heq
    obtain ⟨hp, hq, hd⟩ := heq
    have : i = j := path_index_injective hs hnodup i j hi hj (hp.symm.trans hq ▸ rfl)
    omega
  · intro p q d e hmem hmem2
    rcases (mem_find_duplicates t hs (p, q, d)).mp hmem with
      ⟨i, j, hi, hj, hij, hle, heq⟩
    simp only [Prod.mk.injEq] at heq
    obtain ⟨hp, hq, hd⟩ := heq
    rcases (mem_find_duplicates t hs (q, p, e)).mp hmem2 with
      ⟨i2, j2, hi2, hj2, hij2, hle2, heq2⟩
    simp only [Prod.mk.injEq] at heq2
    obtain ⟨hp2, hq2, hd2⟩ := heq2
    have e1 : j = i2 := path_index_injective hs hnodup j i2 hj hi2 (by rw [← hq, hp2])
    have e2 : i = j2 := path_index_injective hs hnodup i j2 hi hj2 (by rw [← hp, hq2])
    omega

/-- C4 witness: a concrete two-image directory with distinct paths. -/
theorem find_duplicates_reports_iff_witness :
    ((dupDir.map ImageHashes.path).Nodup) ∧
    ((∀ p q d, (p, q, d) ∈ find_duplicates_advanced 5 dupDir →
      ∃ (i j : Nat) (hi : i < dupDir.length) (hj : j < dupDir.length), i < j ∧
        p = (dupDir.get ⟨i, hi⟩).path ∧ q = (dupDir.get ⟨j, hj⟩).path ∧
        d = minDiff (dupDir.get ⟨i, hi⟩) (dupDir.get ⟨j, hj⟩) ∧ d ≤ 5) ∧
    (∀ (i j : Nat) (hi : i < dupDir.length) (hj : j < dupDir.length), i < j →
      minDiff (dupDir.get ⟨i, hi⟩) (dupDir.get ⟨j, hj⟩) ≤ 5 →
      ((dupDir.get ⟨i, hi⟩).path, (dupDir.get ⟨j, hj⟩).path,
        minDiff (dupDir.get ⟨i, hi⟩) (dupDir.get ⟨j, hj⟩)) ∈
          find_duplicates_advanced 5 dupDir) ∧
    (∀ p d, (p, p, d) ∉ find_duplicates_advanced 5 dupDir) ∧
    (find_duplicates_advanced 5 dupDir).Pairwise
      (fun u v => u.1 ≠ v.1 ∨ u.2.1 ≠ v.2.1) ∧
    (∀ p q d e, (p, q, d) ∈ find_duplicates_advanced 5 dupDir →
      (q, p, e) ∉ find_duplicates_advanced 5 dupDir)) :=
  ⟨by decide, find_duplicates_reports_iff 5 dupDir (by decide)⟩

/-- C5 counterexample: a directory with two distinct near-identical images
(minimum difference 0, threshold 5).  After the script runs, both are still
in the directory: the claim that no two distinct images within the
similarity threshold remain is false at this input. -/
theorem reduce_duplicates_no_removal_counterexample :
    ¬ ((reduce_duplicates_script dupDir).1.Pairwise
        (fun a b => a.path ≠ b.path → ¬ minDiff a b ≤ 5)) := by
  decide

/-- C5 (amended): running the duplicate-finding script merely reports the
near-duplicate pairs, each with difference within the threshold 5; the
directory's image set is returned unchanged — no near-duplicate is
removed. -/
theorem reduce_duplicates_script_removes_nothing (directory : List ImageHashes) :
    (reduce_duplicates_script directory).1 = directory ∧
    (reduce_duplicates_script directory).2 = find_duplicates_advanced 5 directory ∧
    ∀ p q d, (p, q, d) ∈ (reduce_duplicates_script directory).2 → d ≤ 5 := by
  refine ⟨rfl, rfl, ?_⟩
  intro p q d hmem
  rcases (mem_find_duplicates 5 directory (p, q, d)).mp hmem with
    ⟨i, j, hi, hj, hij, hle, heq⟩
  simp only [Prod.mk.injEq] at heq
  obtain ⟨hp, hq, hd⟩ := heq
  exact hd ▸ hle

end ReduceDuplicates

end AnkiKorean
